import Mathlib

/-!
Verification development for the HD key-derivation engine and the
memory-safe signing-key lifecycle of the wdk-wallet-tron package.

The JavaScript sources are shallowly embedded: byte buffers become
`List Nat` with every entry below 256, in-place buffer updates become
functions returning the updated list, thrown errors become `Except`
values, and the two cryptographic primitives the engine calls
(HMAC-SHA512 and secp256k1 public-key computation) become an explicit
oracle parameter, since they live in external libraries and the engine
treats their outputs as opaque bytes.
-/

namespace WdkWalletTron

/-- A byte list is well formed when every entry is below 256. -/
def Bytes (l : List Nat) : Prop := ∀ b ∈ l, b < 256

instance : DecidablePred Bytes := fun l =>
  List.decidableBAll (fun b => b < 256) l

/-- Big-endian unsigned value of a byte list (most significant byte first). -/
def beVal : List Nat → Nat
  | [] => 0
  | b :: bs => b * 256 ^ bs.length + beVal bs

/-- The secp256k1 group order, sourced as `secp256k1.CURVE.n` in the code. -/
def curveN : Nat :=
  0xfffffffffffffffffffffffffffffffebaaedce6af48a03bbfd25e8cd0364141

/-- Byte `i` (big-endian) of the curve order: models
`Number((secp256k1.CURVE.n >> BigInt(8 * (31 - i))) & 0xffn)`. -/
def curveOrderByte (i : Nat) : Nat := curveN / 2 ^ (8 * (31 - i)) % 256

/-- The 32 big-endian bytes of the curve order. -/
def nBytes : List Nat := (List.range 32).map curveOrderByte

/-- Short-circuiting byte-wise comparison of two big-endian buffers:
1 when the first is larger, -1 when smaller, 0 when equal.  This is the
loop body of `compareWithCurveOrder` with the order bytes paired up. -/
def lexCmp : List Nat → List Nat → Int
  | a :: as, b :: bs => if a > b then 1 else if a < b then -1 else lexCmp as bs
  | _, _ => 0

/-- Models `compareWithCurveOrder(buffer)`: the source loops `i` from 0
to 31 comparing `buffer[i]` against byte `i` of the curve order,
short-circuiting on the first difference; on 32-byte buffers that is
exactly the lexicographic comparison against `nBytes`. -/
def compareWithCurveOrder (buffer : List Nat) : Int := lexCmp buffer nBytes

/-- Models `isBufferZero(buffer)`. -/
def isBufferZero (buffer : List Nat) : Bool := buffer.all (· == 0)

/-- Schoolbook big-endian addition with carry propagation from the least
significant byte, as in `addPrivateKeys`: the recursive call adds the
tails and its carry feeds the head, exactly like the source loop running
from index 31 down to 0.  Returns (final carry, digit bytes). -/
def addBE : List Nat → List Nat → Nat × List Nat
  | t :: ts, a :: as =>
      let r := addBE ts as
      let sum := t + a + r.1
      (sum / 256, sum % 256 :: r.2)
  | _, _ => (0, [])

/-- Models `addPrivateKeys(target, addition)`: returns the updated buffer
together with the boolean `carry > 0` the source returns. -/
def addPrivateKeys (target addition : List Nat) : List Nat × Bool :=
  ((addBE target addition).2, decide (0 < (addBE target addition).1))

/-- Big-endian subtraction with borrow propagation from the least
significant byte; the body matches the loop of `subtractFromPrivateKey`
(`diff < 0 ? diff + 256 : diff` and `carry = diff < 0 ? 1 : 0`).
Returns (final borrow, digit bytes). -/
def subBE : List Nat → List Nat → Nat × List Nat
  | p :: ps, o :: os =>
      let r := subBE ps os
      if p < o + r.1 then (1, (p + 256 - (o + r.1)) :: r.2)
      else (0, (p - (o + r.1)) :: r.2)
  | _, _ => (0, [])

/-- Models `subtractFromPrivateKey(privateKey)`: subtracts the curve
order bytes in place. -/
def subtractFromPrivateKey (privateKey : List Nat) : List Nat :=
  (subBE privateKey nBytes).2

/-- The add-then-conditionally-reduce sequence from the body of
`derivePrivateKeyBuffer` (lines 329 to 334): add IL to the parent key,
then subtract the order when a carry occurred or the raw sum is at least
the order. -/
def addStep (pk IL : List Nat) : List Nat :=
  let r := addPrivateKeys pk IL
  if r.2 || decide (0 ≤ compareWithCurveOrder r.1) then subtractFromPrivateKey r.1
  else r.1

/-! ## Path parser

Models `parsePath` from the signer utilities: the coarse format check is
the regex `^[mM]\/[0-9'/]+$`, after which the string is lowercased, split
on slashes, the leading component dropped, and each remaining component
run through `parseInt` (longest prefix of decimal digits, NaN when there
is none) with the hardened offset added when the component ends in an
apostrophe. -/

/-- The two error kinds `parsePath` can throw: the format error
(`Invalid derivation path format`) and the index error
(`Invalid index in derivation path`). -/
inductive PathError where
  | invalidPathFormat
  | invalidIndex
deriving DecidableEq, Repr

/-- The apostrophe character, written by code point to keep source text
plain. -/
def apostropheChar : Char := Char.ofNat 39

/-- The character class `[0-9'/]` of the format regex. -/
def isPathChar (c : Char) : Bool := c.isDigit || c == apostropheChar || c == '/'

/-- The test `path.match(/^[mM]\/[0-9'/]+$/)`: an `m` or `M`, a slash,
then one or more characters from `[0-9'/]`. -/
def pathFormatOk (path : String) : Bool :=
  match path.data with
  | m :: s :: rest =>
      (m == 'm' || m == 'M') && (s == '/') && (!rest.isEmpty) && rest.all isPathChar
  | _ => false

/-- JavaScript `split('/')` on a character list: consecutive separators
produce empty components and a trailing separator produces a trailing
empty component. -/
def splitOnSlash : List Char → List (List Char)
  | [] => [[]]
  | c :: cs =>
      if c == '/' then [] :: splitOnSlash cs
      else
        match splitOnSlash cs with
        | g :: gs => (c :: g) :: gs
        | [] => [[c]]

/-- JavaScript `parseInt` restricted to the strings reachable here
(components drawn from `[0-9']`): the longest prefix of decimal digits,
`none` standing for NaN when the prefix is empty. -/
def parseIntJS (s : List Char) : Option Nat :=
  let digits := s.takeWhile Char.isDigit
  if digits.isEmpty then none
  else some (digits.foldl (fun acc c => acc * 10 + (c.toNat - 48)) 0)

/-- The hardened offset `0x80000000`. -/
def HARDENED_OFFSET : Nat := 2 ^ 31

/-- One component of the path: `parseInt`, the NaN check, then the
hardened offset when the component ends with an apostrophe. -/
def parseSegment (comp : List Char) : Except PathError Nat :=
  match parseIntJS comp with
  | none => .error .invalidIndex
  | some index =>
      .ok (if comp.getLast? == some apostropheChar then index + HARDENED_OFFSET
           else index)

/-- Left-to-right traversal of the components, stopping at the first
thrown error, as the `.map` with `throw` in the source does. -/
def parseSegments : List (List Char) → Except PathError (List Nat)
  | [] => .ok []
  | c :: cs =>
      match parseSegment c with
      | .error e => .error e
      | .ok index =>
          match parseSegments cs with
          | .error e => .error e
          | .ok rest => .ok (index :: rest)

/-- Models `parsePath(path)`. -/
def parsePath (path : String) : Except PathError (List Nat) :=
  if !pathFormatOk path then .error .invalidPathFormat
  else parseSegments ((splitOnSlash (path.data.map Char.toLower)).drop 1)

/-! ## Derivation engine

`derivePrivateKeyBuffer` works on three caller-supplied buffers; the
embedding threads the 32-byte private-key buffer and the 64-byte HMAC
output buffer through the loop over the parsed indices.  The chain code
is not a separate buffer in the source: it is the subarray view
`hmacOutputBuffer.subarray(32)`, so overwriting the HMAC output buffer
also replaces the chain code.  HMAC-SHA512, the secp256k1 public-key
point computation and the signature computation are library calls,
embedded as an oracle parameter for their byte output — but their
input validation is part of the library contract and is modelled
explicitly: `secp256k1.getPublicKey` and `secp256k1.sign` throw when
the private key is not a 32-byte scalar in [1, n-1]. -/

/-- The error kinds a full derivation can throw: the two parser errors,
and the error `secp256k1.getPublicKey` raises when handed an invalid
private scalar during an unhardened step. -/
inductive DeriveError where
  | invalidPathFormat
  | invalidIndex
  | invalidPrivateKey
deriving DecidableEq, Repr

/-- Injection of the parser errors into the derivation errors. -/
def DeriveError.ofPath : PathError → DeriveError
  | .invalidPathFormat => .invalidPathFormat
  | .invalidIndex => .invalidIndex

/-- The external cryptographic primitives the engine calls, as pure
byte functions; validation of their inputs is modelled separately. -/
structure CurveOracle where
  hmac : List Nat → List Nat → List Nat
  pubkey : List Nat → List Nat

/-- Well-formedness of the HMAC primitive: 64 output bytes, each below
256. -/
def OracleWF (O : CurveOracle) : Prop :=
  ∀ k m, (O.hmac k m).length = 64 ∧ Bytes (O.hmac k m)

/-- The scalar range `secp256k1` accepts for a private key: a 32-byte
buffer holding a big-endian integer in [1, n-1]. -/
def ValidScalar (pk : List Nat) : Prop :=
  pk.length = 32 ∧ 0 < beVal pk ∧ beVal pk < curveN

instance : DecidablePred ValidScalar := fun pk =>
  inferInstanceAs (Decidable (pk.length = 32 ∧ 0 < beVal pk ∧ beVal pk < curveN))

/-- Models `secp256k1.getPublicKey(privateKey, true)`: the library
validates the scalar and throws on zero or out-of-range keys; on a
valid scalar the point bytes come from the oracle. -/
def getPublicKey (O : CurveOracle) (pk : List Nat) : Except DeriveError (List Nat) :=
  if ValidScalar pk then .ok (O.pubkey pk) else .error .invalidPrivateKey

/-- ASCII bytes of the string `Bitcoin seed`. -/
def MASTER_SECRET : List Nat := [66, 105, 116, 99, 111, 105, 110, 32, 115, 101, 101, 100]

/-- Models `encodeUInt32BE(value)`: four big-endian bytes of the value
reduced to 32 bits, matching the JavaScript shift-and-mask sequence. -/
def encodeUInt32BE (value : Nat) : List Nat :=
  [value % 2 ^ 32 / 2 ^ 24 % 256,
   value % 2 ^ 32 / 2 ^ 16 % 256,
   value % 2 ^ 32 / 2 ^ 8 % 256,
   value % 2 ^ 32 % 256]

/-- TypedArray `buf.set(src, off)` as a pure operation. -/
def writeAt (buf : List Nat) (off : Nat) (src : List Nat) : List Nat :=
  buf.take off ++ src ++ buf.drop (off + src.length)

/-- The 37-byte derivation data assembled each iteration: the buffer is
zero-filled, then either `0x00 ++ privateKey` (hardened) or the
compressed public key (normal) is written at the front, and the
big-endian index at offset 33.  The unhardened branch calls
`secp256k1.getPublicKey`, which throws on an invalid parent scalar. -/
def derivationData (O : CurveOracle) (pk : List Nat) (index : Nat) :
    Except DeriveError (List Nat) :=
  let buf := List.replicate 37 0
  if HARDENED_OFFSET ≤ index then
    .ok (writeAt (writeAt (writeAt buf 0 [0]) 1 pk) 33 (encodeUInt32BE index))
  else
    match getPublicKey O pk with
    | .error e => .error e
    | .ok pub => .ok (writeAt (writeAt buf 0 pub) 33 (encodeUInt32BE index))

/-- The part of the loop body after the derivation data is built:
compute the child HMAC into the output buffer (which replaces the
chain-code view), skip when IL is at least the curve order, otherwise
add IL and reduce, skip when the result is zero, and finally write IR
over the chain-code view (a self-copy, since the view already holds
IR). -/
def deriveStepWith (O : CurveOracle) (pk hmacOut data : List Nat) :
    List Nat × List Nat :=
  let chainCode := hmacOut.drop 32
  let newOut := O.hmac chainCode data
  let IL := newOut.take 32
  let IR := newOut.drop 32
  if 0 ≤ compareWithCurveOrder IL then (pk, newOut)
  else
    let pk2 := addStep pk IL
    if isBufferZero pk2 then (pk2, newOut)
    else (pk2, newOut.take 32 ++ IR)

/-- One loop iteration of `derivePrivateKeyBuffer`: build the
derivation data (which can throw from `getPublicKey` on an unhardened
index), then run the HMAC-and-update body. -/
def deriveStep (O : CurveOracle) (pk hmacOut : List Nat) (index : Nat) :
    Except DeriveError (List Nat × List Nat) :=
  match derivationData O pk index with
  | .error e => .error e
  | .ok data => .ok (deriveStepWith O pk hmacOut data)

/-- The derivation loop over the parsed indices, stopping at the first
thrown error. -/
def deriveLoop (O : CurveOracle) :
    List Nat → List Nat × List Nat → Except DeriveError (List Nat × List Nat)
  | [], s => .ok s
  | index :: rest, s =>
      match deriveStep O s.1 s.2 index with
      | .error e => .error e
      | .ok s2 => deriveLoop O rest s2

/-- Models `derivePrivateKeyBuffer(seed, ..., path)`: the master HMAC
fills the output buffer, its first half becomes the private key, the
path is parsed, and each index runs through `deriveStep`.  The
returned pair is (private-key buffer, HMAC output buffer); the final
chain code is the second half of the latter. -/
def derivePrivateKeyBuffer (O : CurveOracle) (seed : List Nat) (path : String) :
    Except DeriveError (List Nat × List Nat) :=
  let hmacOut := O.hmac MASTER_SECRET seed
  let pk := hmacOut.take 32
  match parsePath path with
  | .error e => .error (DeriveError.ofPath e)
  | .ok indices => deriveLoop O indices (pk, hmacOut)

instance {e a : Type} [DecidableEq e] [DecidableEq a] : DecidableEq (Except e a) :=
  fun x y =>
    match x, y with
    | .error u, .error v => decidable_of_iff (u = v) (by simp)
    | .ok u, .ok v => decidable_of_iff (u = v) (by simp)
    | .error _, .ok _ => isFalse (fun hc => Except.noConfusion hc)
    | .ok _, .error _ => isFalse (fun hc => Except.noConfusion hc)

/-- Taken from the specification text, for comparison with the parser
actually implemented: one segment of the regex `^[mM](/[0-9]+'?)+$`,
that is, one or more digits optionally followed by a single trailing
apostrophe. -/
def specSegmentMatches (seg : List Char) : Bool :=
  let core := if seg.getLast? == some apostropheChar then seg.dropLast else seg
  (!core.isEmpty) && core.all Char.isDigit

/-- Taken from the specification text: a whole path matching
`^[mM](/[0-9]+'?)+$`, phrased over the slash-split components. -/
def specPathRegex (path : String) : Bool :=
  match splitOnSlash path.data with
  | m :: segs => (m == ['m'] || m == ['M']) && (!segs.isEmpty) && segs.all specSegmentMatches
  | [] => false

/-! ## Memory-safe signing key and account disposal

`MemorySafeSigningKey` keeps one 32-byte private buffer; `dispose`
passes the buffer to `sodium_memzero` and then replaces the field with
`undefined`.  A nulled or undefined buffer handed to `sodium_memzero`
(or to `secp256k1.sign`) raises a JavaScript `TypeError`; the embedding
records a missing buffer as `none` and that failure mode as
`undefinedBuffer`. -/

/-- Error kinds of the signing-key surface.  `invalidScalar` is the
error `secp256k1.sign` raises for a 32-byte key outside [1, n-1];
`disposedKeyError` is the error named by the specification, which the
code never raises, as the theorems below make precise. -/
inductive KeyError where
  | invalidKeyLength
  | invalidDigestLength
  | undefinedBuffer
  | invalidScalar
  | disposedKeyError
deriving DecidableEq, Repr

/-- State of a `MemorySafeSigningKey`: the private field
`#privateKeyBuffer`, `none` once it has been set to `undefined`. -/
structure SigningKeyState where
  privateKeyBuffer : Option (List Nat)
deriving DecidableEq, Repr

/-- The constructor check: the supplied buffer must be 32 bytes. -/
def mkSigningKey (buf : List Nat) : Except KeyError SigningKeyState :=
  if buf.length ≠ 32 then .error .invalidKeyLength else .ok ⟨some buf⟩

/-- `sodium_memzero(buf)`: zeroes a live buffer in place, raises a
`TypeError` when handed `null` or `undefined`. -/
def sodiumMemzero : Option (List Nat) → Except KeyError (List Nat)
  | none => .error .undefinedBuffer
  | some b => .ok (List.replicate b.length 0)

/-- `MemorySafeSigningKey.dispose()`: `sodium_memzero` on the buffer,
then the field becomes `undefined`. -/
def signingKeyDispose (s : SigningKeyState) : Except KeyError SigningKeyState :=
  match sodiumMemzero s.privateKeyBuffer with
  | .error err => .error err
  | .ok _ => .ok ⟨none⟩

/-- `MemorySafeSigningKey.sign(digest)`: rejects any digest that is not
exactly 32 bytes, then signs with the private buffer.  With the buffer
gone the underlying curve call raises a `TypeError`; with a 32-byte
buffer holding a scalar outside [1, n-1] `secp256k1.sign` raises its
invalid-key error.  The signature bytes themselves are an oracle
parameter. -/
def signingKeySign (sigFn : List Nat → List Nat → List Nat)
    (s : SigningKeyState) (digest : List Nat) : Except KeyError (List Nat) :=
  if digest.length ≠ 32 then .error .invalidDigestLength
  else
    match s.privateKeyBuffer with
    | none => .error .undefinedBuffer
    | some pk =>
        if ValidScalar pk then .ok (sigFn digest pk) else .error .invalidScalar

/-- The three buffers `WalletAccountTron.dispose()` erases; each field is
`none` once set to `null`. -/
structure AccountBuffers where
  privateKeyBuffer : Option (List Nat)
  hmacOutputBuffer : Option (List Nat)
  derivationDataBuffer : Option (List Nat)
deriving DecidableEq, Repr

/-- `WalletAccountTron.dispose()`: `sodium_memzero` on each of the three
buffers, then all fields become `null`. -/
def accountDispose (a : AccountBuffers) : Except KeyError AccountBuffers :=
  match sodiumMemzero a.privateKeyBuffer with
  | .error err => .error err
  | .ok _ =>
      match sodiumMemzero a.hmacOutputBuffer with
      | .error err => .error err
      | .ok _ =>
          match sodiumMemzero a.derivationDataBuffer with
          | .error err => .error err
          | .ok _ => .ok ⟨none, none, none⟩

/-! ## Buffer aliasing model for the keyPair accessor

Whether `keyPair` hands out the internal buffer by reference or as a
copy is a heap question, so buffers are modelled as references into a
small heap.  The getter builds
`{ privateKey: this._privateKeyBuffer, publicKey: getBytesCopy(...) }`:
the private key is the internal reference itself, the public key a
fresh copy. -/

/-- A heap of byte buffers: a memory map plus the next fresh reference. -/
structure Heap where
  mem : Nat → List Nat
  next : Nat

/-- Reading the buffer a reference points to. -/
def readBuf (h : Heap) (ref : Nat) : List Nat := h.mem ref

/-- Writing one byte through a reference, as a caller mutating a
`Uint8Array` does. -/
def writeByte (h : Heap) (ref index value : Nat) : Heap :=
  { h with mem := fun r => if r = ref then (h.mem ref).set index value else h.mem r }

/-- Allocating a fresh buffer, as `getBytesCopy` does. -/
def allocBuf (h : Heap) (buf : List Nat) : Nat × Heap :=
  (h.next,
   { mem := fun r => if r = h.next then buf else h.mem r, next := h.next + 1 })

/-- The account fields that hold buffer references. -/
structure AccountRefs where
  privateKeyRef : Nat
  publicKeyRef : Nat
deriving DecidableEq, Repr

/-- The object returned by the `keyPair` getter, holding references. -/
structure KeyPairRefs where
  privateKey : Nat
  publicKey : Nat
deriving DecidableEq, Repr

/-- The `keyPair` getter: `privateKey` is the internal buffer reference
itself (`this._privateKeyBuffer`), `publicKey` is a fresh copy
(`getBytesCopy(this._signingKey.publicKey)`). -/
def keyPair (h : Heap) (a : AccountRefs) : KeyPairRefs × Heap :=
  let copy := allocBuf h (readBuf h a.publicKeyRef)
  ({ privateKey := a.privateKeyRef, publicKey := copy.1 }, copy.2)

/-! ## Concrete instances used by the closed evaluations

The HMAC oracle stands for HMAC-SHA512, whose outputs the engine treats
as opaque bytes; quantifying over the oracle corresponds to quantifying
over the possible outputs of the hash on the possible seeds. -/

/-- An oracle whose HMAC output is all zero: the master IL it produces
is the zero scalar. -/
def zeroOracle : CurveOracle where
  hmac := fun _ _ => List.replicate 64 0
  pubkey := fun _ => List.replicate 33 2

/-- An oracle whose master output has chain code `7` repeated and whose
child output has IL all `0xff` (which is at least the curve order, so
the child step is skipped) and IR `9` repeated. -/
def skipOracle : CurveOracle where
  hmac := fun key _ =>
    if key == MASTER_SECRET then List.replicate 32 1 ++ List.replicate 32 7
    else List.replicate 32 255 ++ List.replicate 32 9
  pubkey := fun _ => List.replicate 33 2

/-- A two-buffer heap: reference 0 holds the private scalar, reference 1
the public key bytes. -/
def heap0 : Heap where
  mem := fun r => if r = 0 then [5] else if r = 1 then [9] else []
  next := 2

/-- An account whose private buffer is reference 0 and public buffer is
reference 1 in `heap0`. -/
def acct0 : AccountRefs := ⟨0, 1⟩

theorem bytes_nil : Bytes [] := fun b hb => absurd hb (List.not_mem_nil b)

theorem bytes_cons {b : Nat} {bs : List Nat} (hb : b < 256) (hbs : Bytes bs) :
    Bytes (b :: bs) := by
  intro c hc
  rcases List.mem_cons.mp hc with h | h
  · omega
  · exact hbs c h

theorem bytes_head {b : Nat} {bs : List Nat} (h : Bytes (b :: bs)) : b < 256 :=
  h b (List.mem_cons_self b bs)

theorem bytes_tail {b : Nat} {bs : List Nat} (h : Bytes (b :: bs)) : Bytes bs :=
  fun c hc => h c (List.mem_cons_of_mem b hc)

theorem beVal_lt_pow {l : List Nat} (h : Bytes l) : beVal l < 256 ^ l.length := by
  induction l with
  | nil => simp [beVal]
  | cons b bs ih =>
      have hb : b < 256 := bytes_head h
      have ihh := ih (bytes_tail h)
      simp only [beVal, List.length_cons, pow_succ]
      calc b * 256 ^ bs.length + beVal bs
          < b * 256 ^ bs.length + 256 ^ bs.length := by omega
        _ = (b + 1) * 256 ^ bs.length := by ring
        _ ≤ 256 * 256 ^ bs.length := Nat.mul_le_mul_right _ (by omega)
        _ = 256 ^ bs.length * 256 := by ring

theorem lexCmp_eq_compare :
    ∀ (a b : List Nat), a.length = b.length → Bytes a → Bytes b →
      lexCmp a b =
        if beVal a < beVal b then -1 else if beVal a = beVal b then 0 else 1 := by
  intro a
  induction a with
  | nil =>
      intro b hl _ _
      cases b with
      | nil => simp [lexCmp, beVal]
      | cons y ys => simp at hl
  | cons x xs ih =>
      intro b hl ha hb
      cases b with
      | nil => simp at hl
      | cons y ys =>
          have hx : x < 256 := bytes_head ha
          have hy : y < 256 := bytes_head hb
          have hxs := bytes_tail ha
          have hys := bytes_tail hb
          have hlen : xs.length = ys.length := by simpa using hl
          have hxlt : beVal xs < 256 ^ ys.length := by
            rw [← hlen]; exact beVal_lt_pow hxs
          have hylt : beVal ys < 256 ^ ys.length := beVal_lt_pow hys
          rcases Nat.lt_trichotomy x y with hcase | hcase | hcase
          · have hv : beVal (x :: xs) < beVal (y :: ys) := by
              simp only [beVal, hlen]
              calc x * 256 ^ ys.length + beVal xs
                  < x * 256 ^ ys.length + 256 ^ ys.length := by omega
                _ = (x + 1) * 256 ^ ys.length := by ring
                _ ≤ y * 256 ^ ys.length := Nat.mul_le_mul_right _ (by omega)
                _ ≤ y * 256 ^ ys.length + beVal ys := Nat.le_add_right _ _
            simp only [lexCmp]
            rw [if_neg (by omega), if_pos hcase, if_pos hv]
          · subst hcase
            have hstep : lexCmp (x :: xs) (x :: ys) = lexCmp xs ys := by
              simp [lexCmp]
            rw [hstep, ih ys hlen hxs hys]
            simp only [beVal, hlen, add_lt_add_iff_left, add_right_inj]
          · have hv : beVal (y :: ys) < beVal (x :: xs) := by
              simp only [beVal, hlen]
              calc y * 256 ^ ys.length + beVal ys
                  < y * 256 ^ ys.length + 256 ^ ys.length := by omega
                _ = (y + 1) * 256 ^ ys.length := by ring
                _ ≤ x * 256 ^ ys.length := Nat.mul_le_mul_right _ (by omega)
                _ ≤ x * 256 ^ ys.length + beVal xs := Nat.le_add_right _ _
            simp only [lexCmp]
            rw [if_pos hcase, if_neg (by omega), if_neg (by omega)]

theorem nBytes_length : nBytes.length = 32 := by decide

theorem nBytes_bytes : Bytes nBytes := by decide

theorem beVal_nBytes : beVal nBytes = curveN := by decide

/-- Specification of `compareWithCurveOrder` on well-formed 32-byte
buffers: its sign is the comparison of the buffer value with the curve
order. -/
theorem compareWithCurveOrder_spec {buf : List Nat}
    (hl : buf.length = 32) (hb : Bytes buf) :
    compareWithCurveOrder buf =
      if beVal buf < curveN then -1 else if beVal buf = curveN then 0 else 1 := by
  unfold compareWithCurveOrder
  rw [lexCmp_eq_compare buf nBytes (by rw [hl, nBytes_length]) hb nBytes_bytes,
    beVal_nBytes]

/-- Correctness of the schoolbook addition: on equal-length well-formed
buffers it returns well-formed digits of the same length, a carry of at
most one, and digits plus carry account exactly for the numeric sum. -/
theorem addBE_spec :
    ∀ (t a : List Nat), t.length = a.length → Bytes t → Bytes a →
      (addBE t a).2.length = t.length ∧ Bytes (addBE t a).2 ∧
        (addBE t a).1 ≤ 1 ∧
        beVal (addBE t a).2 + (addBE t a).1 * 256 ^ t.length = beVal t + beVal a := by
  intro t
  induction t with
  | nil =>
      intro a hl _ _
      cases a with
      | nil => refine ⟨rfl, bytes_nil, by simp [addBE], by simp [addBE, beVal]⟩
      | cons y ys => simp at hl
  | cons x xs ih =>
      intro a hl ha hb
      cases a with
      | nil => simp at hl
      | cons y ys =>
          have hx : x < 256 := bytes_head ha
          have hy : y < 256 := bytes_head hb
          have hlen : xs.length = ys.length := by simpa using hl
          obtain ⟨ihlen, ihbytes, ihcarry, ihval⟩ := ih ys hlen (bytes_tail ha) (bytes_tail hb)
          have hsum : x + y + (addBE xs ys).1 ≤ 511 := by omega
          have hdm := Nat.div_add_mod (x + y + (addBE xs ys).1) 256
          refine ⟨by simp [addBE, ihlen], ?_, ?_, ?_⟩
          · exact bytes_cons (Nat.mod_lt _ (by omega)) ihbytes
          · show (x + y + (addBE xs ys).1) / 256 ≤ 1
            omega
          · show beVal ((x + y + (addBE xs ys).1) % 256 :: (addBE xs ys).2) +
              (x + y + (addBE xs ys).1) / 256 * 256 ^ (x :: xs).length =
              beVal (x :: xs) + beVal (y :: ys)
            simp only [beVal, List.length_cons, ihlen, hlen, pow_succ]
            rw [hlen] at ihval
            zify at ihval hdm ⊢
            linear_combination ihval + ((256 : ℤ) ^ ys.length) * hdm

/-- Correctness of the schoolbook subtraction: on equal-length well-formed
buffers it returns well-formed digits of the same length, a borrow of at
most one, and the identity `digits + subtrahend = minuend + borrow * base`. -/
theorem subBE_spec :
    ∀ (p o : List Nat), p.length = o.length → Bytes p → Bytes o →
      (subBE p o).2.length = p.length ∧ Bytes (subBE p o).2 ∧
        (subBE p o).1 ≤ 1 ∧
        beVal (subBE p o).2 + beVal o = beVal p + (subBE p o).1 * 256 ^ p.length := by
  intro p
  induction p with
  | nil =>
      intro o hl _ _
      cases o with
      | nil => refine ⟨rfl, bytes_nil, by simp [subBE], by simp [subBE, beVal]⟩
      | cons y ys => simp at hl
  | cons x xs ih =>
      intro o hl ha hb
      cases o with
      | nil => simp at hl
      | cons y ys =>
          have hx : x < 256 := bytes_head ha
          have hy : y < 256 := bytes_head hb
          have hlen : xs.length = ys.length := by simpa using hl
          obtain ⟨ihlen, ihbytes, ihborrow, ihval⟩ := ih ys hlen (bytes_tail ha) (bytes_tail hb)
          by_cases hc : x < y + (subBE xs ys).1
          · have hstep : subBE (x :: xs) (y :: ys) =
                (1, (x + 256 - (y + (subBE xs ys).1)) :: (subBE xs ys).2) := by
              simp [subBE, hc]
            rw [hstep]
            refine ⟨by simp [ihlen], bytes_cons (by omega) ihbytes, le_refl 1, ?_⟩
            simp only [beVal, List.length_cons, ihlen, hlen, pow_succ]
            have hxle : y + (subBE xs ys).1 ≤ x + 256 := by omega
            rw [hlen] at ihval
            zify [hxle] at ihval ⊢
            linear_combination ihval
          · have hstep : subBE (x :: xs) (y :: ys) =
                (0, (x - (y + (subBE xs ys).1)) :: (subBE xs ys).2) := by
              simp [subBE, hc]
            rw [hstep]
            refine ⟨by simp [ihlen], bytes_cons (by omega) ihbytes, by omega, ?_⟩
            simp only [beVal, List.length_cons, ihlen, hlen, pow_succ]
            have hxle : y + (subBE xs ys).1 ≤ x := by omega
            rw [hlen] at ihval
            zify [hxle] at ihval ⊢
            linear_combination ihval

/-- Base facts about the curve order needed for the modular reasoning. -/
theorem curveN_bounds : 2 ^ 255 < curveN ∧ curveN < 256 ^ 32 ∧ 256 ^ 32 < 2 * curveN := by
  decide

/-- Behaviour of `subtractFromPrivateKey` on a 32-byte buffer: it
computes the value minus the curve order, wrapping modulo the buffer
width when the value is below the order. -/
theorem subtractFromPrivateKey_spec {s : List Nat}
    (hl : s.length = 32) (hb : Bytes s) :
    (subtractFromPrivateKey s).length = 32 ∧ Bytes (subtractFromPrivateKey s) ∧
      beVal (subtractFromPrivateKey s) =
        if curveN ≤ beVal s then beVal s - curveN
        else beVal s + 256 ^ 32 - curveN := by
  obtain ⟨hlen, hbytes, hborrow, hval⟩ :=
    subBE_spec s nBytes (by rw [hl, nBytes_length]) hb nBytes_bytes
  rw [beVal_nBytes] at hval
  rw [hl] at hlen hval
  have hout : beVal (subBE s nBytes).2 < 256 ^ 32 := by
    have := beVal_lt_pow hbytes; rwa [hlen] at this
  obtain ⟨hn1, hn2, hn3⟩ := curveN_bounds
  refine ⟨hlen, hbytes, ?_⟩
  show beVal (subBE s nBytes).2 = _
  by_cases hge : curveN ≤ beVal s
  · have hb0 : (subBE s nBytes).1 = 0 := by
      rcases Nat.lt_or_ge (subBE s nBytes).1 1 with h | h
      · omega
      · have hb1 : (subBE s nBytes).1 = 1 := by omega
        rw [hb1] at hval; omega
    rw [hb0] at hval
    rw [if_pos hge]
    omega
  · have hb1 : (subBE s nBytes).1 = 1 := by
      rcases Nat.lt_or_ge (subBE s nBytes).1 1 with h | h
      · have hb0 : (subBE s nBytes).1 = 0 := by omega
        rw [hb0] at hval; omega
      · omega
    rw [hb1] at hval
    rw [if_neg hge]
    omega

/-- Core correctness of the add-then-conditionally-reduce sequence: for
well-formed 32-byte buffers whose values are below the curve order, the
result holds exactly the modular sum, stays 32 bytes long and stays well
formed. -/
theorem addStep_spec {pk IL : List Nat}
    (hlp : pk.length = 32) (hli : IL.length = 32)
    (hbp : Bytes pk) (hbi : Bytes IL)
    (hpn : beVal pk < curveN) (hin : beVal IL < curveN) :
    beVal (addStep pk IL) = (beVal pk + beVal IL) % curveN ∧
      (addStep pk IL).length = 32 ∧ Bytes (addStep pk IL) := by
  obtain ⟨hn1, hn2, hn3⟩ := curveN_bounds
  obtain ⟨haddlen, haddbytes, haddcarry, haddval⟩ :=
    addBE_spec pk IL (by rw [hlp, hli]) hbp hbi
  rw [hlp] at haddlen haddval
  have hslt : beVal (addBE pk IL).2 < 256 ^ 32 := by
    have := beVal_lt_pow haddbytes; rwa [haddlen] at this
  have hcmp := compareWithCurveOrder_spec haddlen haddbytes
  have hcases : (addBE pk IL).1 = 0 ∨ (addBE pk IL).1 = 1 := by omega
  rcases hcases with hc | hc
  · rw [hc] at haddval
    by_cases hlt : beVal (addBE pk IL).2 < curveN
    · have hcmpneg : compareWithCurveOrder (addBE pk IL).2 = -1 := by
        rw [hcmp, if_pos hlt]
      have hstep : addStep pk IL = (addBE pk IL).2 := by
        simp [addStep, addPrivateKeys, hc, hcmpneg]
      rw [hstep]
      refine ⟨?_, haddlen, haddbytes⟩
      rw [Nat.mod_eq_of_lt (by omega)]
      omega
    · have hcmppos : (0 : Int) ≤ compareWithCurveOrder (addBE pk IL).2 := by
        rw [hcmp, if_neg hlt]
        by_cases he : beVal (addBE pk IL).2 = curveN <;> simp [he]
      have hstep : addStep pk IL = subtractFromPrivateKey (addBE pk IL).2 := by
        simp [addStep, addPrivateKeys, hc, hcmppos]
      obtain ⟨hsl, hsb, hsv⟩ := subtractFromPrivateKey_spec haddlen haddbytes
      rw [if_pos (by omega)] at hsv
      rw [hstep]
      refine ⟨?_, hsl, hsb⟩
      rw [hsv, Nat.mod_eq_sub_mod (by omega), Nat.mod_eq_of_lt (by omega)]
      omega
  · rw [hc] at haddval
    have hstep : addStep pk IL = subtractFromPrivateKey (addBE pk IL).2 := by
      simp [addStep, addPrivateKeys, hc]
    obtain ⟨hsl, hsb, hsv⟩ := subtractFromPrivateKey_spec haddlen haddbytes
    have hlow : beVal (addBE pk IL).2 < curveN := by omega
    rw [if_neg (by omega)] at hsv
    rw [hstep]
    refine ⟨?_, hsl, hsb⟩
    rw [hsv, Nat.mod_eq_sub_mod (by omega), Nat.mod_eq_of_lt (by omega)]
    omega


/-! ## Supporting lemmas about the parser and the derivation fold -/

/-- The only error a segment parse can throw is the index error. -/
theorem parseSegment_error_is_index {c : List Char} {e : PathError}
    (h : parseSegment c = .error e) : e = .invalidIndex := by
  unfold parseSegment at h
  split at h
  · injection h with h2; exact h2.symm
  · exact absurd h (by simp)

/-- The segment traversal never throws the format error. -/
theorem parseSegments_ne_format (comps : List (List Char)) :
    parseSegments comps ≠ .error .invalidPathFormat := by
  induction comps with
  | nil => simp [parseSegments]
  | cons c cs ih =>
      unfold parseSegments
      split
      · rename_i e he
        intro hc
        injection hc with hc2
        exact absurd (parseSegment_error_is_index he) (by rw [hc2]; decide)
      · split
        · rename_i e he
          intro hc
          injection hc with hc2
          rw [hc2] at he
          exact ih he
        · simp

/-- The first half of a well-formed HMAC output is a well-formed 32-byte
buffer. -/
theorem takeIL_wf {O : CurveOracle} (hwf : OracleWF O) (k m : List Nat) :
    ((O.hmac k m).take 32).length = 32 ∧ Bytes ((O.hmac k m).take 32) := by
  obtain ⟨hl, hb⟩ := hwf k m
  refine ⟨by simp [List.length_take, hl], ?_⟩
  intro b hmem
  exact hb b (List.mem_of_mem_take hmem)

/-- The loop body after data assembly keeps the private-key buffer
32 bytes long, well formed, and below the curve order, for every
derivation data. -/
theorem deriveStepWith_preserves {O : CurveOracle} (hwf : OracleWF O)
    {pk : List Nat} (out data : List Nat)
    (h32 : pk.length = 32) (hb : Bytes pk) (hlt : beVal pk < curveN) :
    (deriveStepWith O pk out data).1.length = 32 ∧
      Bytes (deriveStepWith O pk out data).1 ∧
      beVal (deriveStepWith O pk out data).1 < curveN := by
  obtain ⟨hILl, hILb⟩ := takeIL_wf hwf (out.drop 32) data
  unfold deriveStepWith
  by_cases hskip : 0 ≤ compareWithCurveOrder ((O.hmac (out.drop 32) data).take 32)
  · simp only [if_pos hskip]
    exact ⟨h32, hb, hlt⟩
  · simp only [if_neg hskip]
    have hIL : beVal ((O.hmac (out.drop 32) data).take 32) < curveN := by
      by_contra hge
      rw [compareWithCurveOrder_spec hILl hILb] at hskip
      rw [if_neg (by omega)] at hskip
      split at hskip <;> omega
    obtain ⟨hval, hlen, hbytes⟩ := addStep_spec h32 hILl hb hILb hlt hIL
    have hpos : 0 < curveN := by have := curveN_bounds.1; omega
    have hmod := Nat.mod_lt
      (beVal pk + beVal ((O.hmac (out.drop 32) data).take 32)) hpos
    cases hz : isBufferZero (addStep pk ((O.hmac (out.drop 32) data).take 32)) <;>
      simp only [hz, if_pos, if_neg, Bool.false_eq_true, ite_true, ite_false] <;>
      exact ⟨hlen, hbytes, by omega⟩

/-- A successful derivation step is the loop body applied to some
derivation data. -/
theorem deriveStep_ok {O : CurveOracle} {pk hmacOut : List Nat} {index : Nat}
    {s2 : List Nat × List Nat} (h : deriveStep O pk hmacOut index = .ok s2) :
    ∃ data, s2 = deriveStepWith O pk hmacOut data := by
  unfold deriveStep at h
  cases hd : derivationData O pk index with
  | error e => rw [hd] at h; exact absurd h (by simp)
  | ok data =>
      rw [hd] at h
      injection h with h2
      exact ⟨data, h2.symm⟩

/-- A successful run of the derivation loop keeps the private-key
buffer 32 bytes long, well formed, and below the curve order. -/
theorem deriveLoop_preserves {O : CurveOracle} (hwf : OracleWF O) :
    ∀ (idxs : List Nat) (s : List Nat × List Nat),
      s.1.length = 32 → Bytes s.1 → beVal s.1 < curveN →
      ∀ r, deriveLoop O idxs s = .ok r →
        r.1.length = 32 ∧ Bytes r.1 ∧ beVal r.1 < curveN := by
  intro idxs
  induction idxs with
  | nil =>
      intro s h1 h2 h3 r hr
      injection hr with hr2
      rw [← hr2]
      exact ⟨h1, h2, h3⟩
  | cons i is ih =>
      intro s h1 h2 h3 r hr
      unfold deriveLoop at hr
      cases hstep : deriveStep O s.1 s.2 i with
      | error e => rw [hstep] at hr; exact absurd hr (by simp)
      | ok s2 =>
          rw [hstep] at hr
          obtain ⟨data, hdata⟩ := deriveStep_ok hstep
          obtain ⟨g1, g2, g3⟩ := deriveStepWith_preserves hwf s.2 data h1 h2 h3
          rw [← hdata] at g1 g2 g3
          exact ih s2 g1 g2 g3 r hr

/-- A hardened index never makes a derivation step fail: the hardened
branch of the data assembly does not call `getPublicKey`. -/
theorem deriveStep_hardened_ok (O : CurveOracle) (pk hmacOut : List Nat)
    {index : Nat} (hi : HARDENED_OFFSET ≤ index) :
    deriveStep O pk hmacOut index =
      .ok (deriveStepWith O pk hmacOut
        (writeAt (writeAt (writeAt (List.replicate 37 0) 0 [0]) 1 pk) 33
          (encodeUInt32BE index))) := by
  unfold deriveStep derivationData
  rw [if_pos hi]

/-- The derivation loop never fails on a list of hardened indices. -/
theorem deriveLoop_hardened_ok (O : CurveOracle) :
    ∀ (idxs : List Nat), (∀ i ∈ idxs, HARDENED_OFFSET ≤ i) →
      ∀ s, (deriveLoop O idxs s).isOk = true := by
  intro idxs
  induction idxs with
  | nil => intro _ s; rfl
  | cons i is ih =>
      intro hh s
      have hi : HARDENED_OFFSET ≤ i := hh i (by simp)
      unfold deriveLoop
      rw [deriveStep_hardened_ok O s.1 s.2 hi]
      exact ih (fun j hj => hh j (by simp [hj])) _

/-- The all-zero oracle is well formed. -/
theorem zeroOracle_wf : OracleWF zeroOracle := by
  intro k m
  refine ⟨rfl, ?_⟩
  intro b hb
  have : b = 0 := List.eq_of_mem_replicate hb
  omega

/-! ## Claim C1 -/

/-- C1 counterexample: with an HMAC oracle whose output is all zero,
the parser accepts the hardened path written here as m slash zero
apostrophe, the hardened step never calls getPublicKey, and the
derivation completes with the zero scalar in the buffer, so the claimed
invariant 0 < v < n fails on an accepted derivation (the code never
validates the master IL, and a child sum of zero is kept). -/
theorem C1_scalar_zero_counterexample :
    derivePrivateKeyBuffer zeroOracle [] (String.mk ['m', '/', '0', apostropheChar]) =
      .ok (List.replicate 32 0, List.replicate 64 0) ∧
    ¬ 0 < beVal (List.replicate 32 0) := by decide

/-- C1 (amended): provided the master IL produced by the HMAC oracle is
below the curve order, every successful derivation leaves a 32-byte
scalar strictly below the curve order; the strict lower bound 0 < v of
the original claim does not hold. -/
theorem C1_derived_scalar_lt_order (O : CurveOracle) (seed : List Nat) (path : String)
    (r : List Nat × List Nat) (hwf : OracleWF O)
    (hm : beVal ((O.hmac MASTER_SECRET seed).take 32) < curveN)
    (hr : derivePrivateKeyBuffer O seed path = .ok r) :
    beVal r.1 < curveN ∧ r.1.length = 32 := by
  unfold derivePrivateKeyBuffer at hr
  cases hp : parsePath path with
  | error e =>
      rw [hp] at hr
      exact absurd hr (by simp)
  | ok indices =>
      rw [hp] at hr
      obtain ⟨hIl, hIb⟩ := takeIL_wf hwf MASTER_SECRET seed
      obtain ⟨g1, g2, g3⟩ := deriveLoop_preserves hwf indices
        ((O.hmac MASTER_SECRET seed).take 32, O.hmac MASTER_SECRET seed) hIl hIb hm r hr
      exact ⟨g3, g1⟩

/-- C1 witness: the amended theorem applied to the all-zero oracle on
the hardened zero path. -/
theorem C1_derived_scalar_lt_order_witness :
    beVal (List.replicate 32 0) < curveN ∧ (List.replicate 32 0 : List Nat).length = 32 :=
  C1_derived_scalar_lt_order zeroOracle [] (String.mk ['m', '/', '0', apostropheChar])
    (List.replicate 32 0, List.replicate 64 0) zeroOracle_wf (by decide) (by decide)

/-! ## Claim C2 -/

/-- C2 counterexample: dispose on a live key succeeds, but a second
dispose throws (the zeroize primitive receives an undefined buffer), so
dispose is not idempotent; and a sign call after disposal throws the
undefined-buffer type error, not a DisposedKeyError; the
account-level dispose behaves the same way on nulled buffers. -/
theorem C2_dispose_not_idempotent_counterexample :
    signingKeyDispose ⟨some (List.replicate 32 1)⟩ = .ok ⟨none⟩ ∧
    signingKeyDispose ⟨none⟩ = .error .undefinedBuffer ∧
    signingKeySign (fun _ _ => []) ⟨none⟩ (List.replicate 32 0) =
      .error .undefinedBuffer ∧
    accountDispose ⟨none, none, none⟩ = .error .undefinedBuffer := by decide

/-- C2 (amended): on a disposed key every further dispose call fails
with the undefined-buffer type error (so dispose is not idempotent),
and every sign call fails, though never with the DisposedKeyError the
specification names. -/
theorem C2_disposed_state_behaviour (sigFn : List Nat → List Nat → List Nat)
    (s : SigningKeyState) (digest : List Nat) (h : s.privateKeyBuffer = none) :
    signingKeyDispose s = .error .undefinedBuffer ∧
    (signingKeySign sigFn s digest).isOk = false ∧
    signingKeySign sigFn s digest ≠ .error .disposedKeyError := by
  obtain ⟨buf⟩ := s
  cases buf with
  | some b => simp at h
  | none =>
      refine ⟨rfl, ?_, ?_⟩
      · unfold signingKeySign
        by_cases hd : digest.length ≠ 32
        · rw [if_pos hd]; rfl
        · rw [if_neg hd]; rfl
      · unfold signingKeySign
        by_cases hd : digest.length ≠ 32
        · rw [if_pos hd]; simp
        · rw [if_neg hd]; simp

/-- C2 witness: the amended theorem applied to the disposed state. -/
theorem C2_disposed_state_behaviour_witness :
    signingKeyDispose ⟨none⟩ = .error .undefinedBuffer ∧
    (signingKeySign (fun _ _ => []) ⟨none⟩ (List.replicate 32 0)).isOk = false ∧
    signingKeySign (fun _ _ => []) ⟨none⟩ (List.replicate 32 0) ≠
      .error .disposedKeyError :=
  C2_disposed_state_behaviour (fun _ _ => []) ⟨none⟩ (List.replicate 32 0) rfl

/-! ## Claim C3 -/

/-- C3 counterexample: an all-zero master IL is not rejected at
master-key time: over the hardened zero path (which never calls
getPublicKey) the derivation returns a key rather than the
InvalidMasterKey error the claim requires for every such seed. -/
theorem C3_no_master_validation_counterexample :
    beVal ((zeroOracle.hmac MASTER_SECRET []).take 32) = 0 ∧
    (derivePrivateKeyBuffer zeroOracle []
      (String.mk ['m', '/', '0', apostropheChar])).isOk = true := by decide

/-- C3 (amended): no master-key validation exists and no
InvalidMasterKey error is ever raised: the master IL is installed as
the scalar unconditionally, and whenever the parsed path consists of
hardened indices only, the derivation succeeds for every oracle and
every seed — including seeds whose IL is zero or at least the curve
order.  (On unhardened steps an invalid scalar does surface, but as the
invalid-private-key throw of secp256k1.getPublicKey inside the child
step, not as a master-key check.) -/
theorem C3_hardened_derivation_never_rejects_master (O : CurveOracle)
    (seed : List Nat) (path : String) (indices : List Nat)
    (hp : parsePath path = .ok indices)
    (hh : ∀ i ∈ indices, HARDENED_OFFSET ≤ i) :
    (derivePrivateKeyBuffer O seed path).isOk = true := by
  unfold derivePrivateKeyBuffer
  rw [hp]
  exact deriveLoop_hardened_ok O indices hh _

/-- C3 witness: the amended theorem applied to the zero oracle on the
hardened zero path. -/
theorem C3_hardened_derivation_never_rejects_master_witness :
    (derivePrivateKeyBuffer zeroOracle []
      (String.mk ['m', '/', '0', apostropheChar])).isOk = true :=
  C3_hardened_derivation_never_rejects_master zeroOracle []
    (String.mk ['m', '/', '0', apostropheChar]) [HARDENED_OFFSET] (by decide) (by decide)

/-! ## Claim C4 -/

/-- C4 (confirmed): for a parent scalar a with 0 < a < n and an IL
below n, the in-place big-endian addition followed by the conditional
curve-order subtraction leaves exactly (a + IL) mod n in the buffer. -/
theorem C4_add_then_reduce_is_modular_sum (a IL : List Nat)
    (hla : a.length = 32) (hli : IL.length = 32) (hba : Bytes a) (hbi : Bytes IL)
    (_ha0 : 0 < beVal a) (han : beVal a < curveN) (hin : beVal IL < curveN) :
    beVal (addStep a IL) = (beVal a + beVal IL) % curveN :=
  (addStep_spec hla hli hba hbi han hin).1

/-- C4 witness: the theorem applied at the scalars 1 and 2. -/
theorem C4_add_then_reduce_is_modular_sum_witness :
    beVal (addStep (List.replicate 31 0 ++ [1]) (List.replicate 31 0 ++ [2])) =
      (beVal (List.replicate 31 0 ++ [1]) + beVal (List.replicate 31 0 ++ [2])) % curveN :=
  C4_add_then_reduce_is_modular_sum (List.replicate 31 0 ++ [1])
    (List.replicate 31 0 ++ [2]) (by decide) (by decide) (by decide) (by decide)
    (by decide) (by decide) (by decide)

/-! ## Claim C5 -/

/-- C5 counterexample: on the path m/0 with an oracle whose child IL is
at least the curve order, the step is skipped (the scalar stays the
master IL), yet the chain code half of the output buffer has advanced
to the skipped step IR (9 repeated) instead of staying at the master
chain code (7 repeated): the cryptographic state is not fully preserved
on a skip. -/
theorem C5_chain_code_advances_on_skip_counterexample :
    derivePrivateKeyBuffer skipOracle [] "m/0" =
      .ok (List.replicate 32 1, List.replicate 32 255 ++ List.replicate 32 9) ∧
    (List.replicate 32 255 ++ List.replicate 32 9).drop 32 ≠
      (List.replicate 32 1 ++ List.replicate 32 7).drop 32 := by decide

/-- C5 (amended): for every derivation data reaching the loop body, on
a skipped step (IL at least the curve order) the private-key buffer is
unchanged, on a non-skipped step it holds the reduced sum even when
that sum is zero, and in every case the HMAC output buffer — whose
second half is the chain-code view — is overwritten with the step
output, so the chain code advances to IR on skipped steps too. -/
theorem C5_skip_and_chain_code_behaviour (O : CurveOracle)
    (pk hmacOut data : List Nat) :
    (0 ≤ compareWithCurveOrder ((O.hmac (hmacOut.drop 32) data).take 32) →
      (deriveStepWith O pk hmacOut data).1 = pk) ∧
    (¬ 0 ≤ compareWithCurveOrder ((O.hmac (hmacOut.drop 32) data).take 32) →
      (deriveStepWith O pk hmacOut data).1 =
        addStep pk ((O.hmac (hmacOut.drop 32) data).take 32)) ∧
    (deriveStepWith O pk hmacOut data).2 = O.hmac (hmacOut.drop 32) data := by
  refine ⟨?_, ?_, ?_⟩
  · intro h
    simp only [deriveStepWith, if_pos h]
  · intro h
    unfold deriveStepWith
    rw [if_neg h]
    cases hz : isBufferZero
        (addStep pk ((O.hmac (hmacOut.drop 32) data).take 32)) <;>
      simp [hz]
  · unfold deriveStepWith
    by_cases h : 0 ≤ compareWithCurveOrder ((O.hmac (hmacOut.drop 32) data).take 32)
    · rw [if_pos h]
    · rw [if_neg h]
      cases hz : isBufferZero
          (addStep pk ((O.hmac (hmacOut.drop 32) data).take 32)) <;>
        simp [hz, List.take_append_drop]

/-- C5 witness: the skip branch of the amended theorem at the skip
oracle. -/
theorem C5_skip_and_chain_code_behaviour_witness :
    (deriveStepWith skipOracle (List.replicate 32 1)
      (List.replicate 32 1 ++ List.replicate 32 7) (List.replicate 37 0)).1 =
      List.replicate 32 1 :=
  (C5_skip_and_chain_code_behaviour skipOracle (List.replicate 32 1)
    (List.replicate 32 1 ++ List.replicate 32 7) (List.replicate 37 0)).1 (by decide)

/-! ## Claim C6 -/

/-- C6 counterexample: writing a byte through the privateKey reference
returned by the keyPair getter changes the account internal scalar
buffer, so the getter does not return an independent snapshot. -/
theorem C6_keyPair_mutation_counterexample :
    readBuf (writeByte (keyPair heap0 acct0).2 (keyPair heap0 acct0).1.privateKey 0 7)
      acct0.privateKeyRef ≠ readBuf heap0 acct0.privateKeyRef := by decide

/-- C6 (amended): the keyPair getter returns the internal private-key
buffer by reference: the returned privateKey is the very internal
reference, reading the internal buffer is unaffected by the getter
itself, and a write through the returned reference is a write to the
internal buffer. -/
theorem C6_keyPair_returns_reference (h : Heap) (a : AccountRefs) (i v : Nat)
    (hvalid : a.privateKeyRef < h.next) :
    (keyPair h a).1.privateKey = a.privateKeyRef ∧
    readBuf (keyPair h a).2 a.privateKeyRef = readBuf h a.privateKeyRef ∧
    readBuf (writeByte (keyPair h a).2 (keyPair h a).1.privateKey i v) a.privateKeyRef =
      (readBuf h a.privateKeyRef).set i v := by
  have hne : a.privateKeyRef ≠ h.next := by omega
  refine ⟨rfl, ?_, ?_⟩
  · simp only [keyPair, allocBuf, readBuf]
    rw [if_neg hne]
  · simp only [keyPair, allocBuf, readBuf, writeByte]
    simp [hne]

/-- C6 witness: the amended theorem at the concrete two-buffer heap. -/
theorem C6_keyPair_returns_reference_witness :
    (keyPair heap0 acct0).1.privateKey = acct0.privateKeyRef ∧
    readBuf (keyPair heap0 acct0).2 acct0.privateKeyRef =
      readBuf heap0 acct0.privateKeyRef ∧
    readBuf (writeByte (keyPair heap0 acct0).2 (keyPair heap0 acct0).1.privateKey 0 7)
      acct0.privateKeyRef = (readBuf heap0 acct0.privateKeyRef).set 0 7 :=
  C6_keyPair_returns_reference heap0 acct0 0 7 (by decide)

/-! ## Claim C7 -/

/-- C7 counterexample: the parser accepts a path with a doubled
apostrophe, which the regex claimed by the specification rejects; and a
path whose segment starts with an apostrophe fails with InvalidIndex,
not InvalidPathFormat. -/
theorem C7_parser_not_spec_regex_counterexample :
    (parsePath (String.mk ['m', '/', '0', apostropheChar, apostropheChar])).isOk = true ∧
    specPathRegex (String.mk ['m', '/', '0', apostropheChar, apostropheChar]) = false ∧
    parsePath (String.mk ['m', '/', apostropheChar, '0']) = .error .invalidIndex := by
  decide

/-- C7 (amended): the parser rejects with InvalidPathFormat exactly the
strings failing the coarse pattern of the source regex (an m or M, a
slash, then at least one character from digits, apostrophe or slash);
in particular m/abc and 0/0 fail with InvalidPathFormat as claimed, but
strings passing the coarse pattern can only fail with InvalidIndex. -/
theorem C7_format_error_iff_coarse_pattern :
    (∀ path : String,
      parsePath path = .error .invalidPathFormat ↔ pathFormatOk path = false) ∧
    parsePath "m/abc" = .error .invalidPathFormat ∧
    parsePath "0/0" = .error .invalidPathFormat := by
  refine ⟨?_, by decide, by decide⟩
  intro path
  unfold parsePath
  by_cases h : pathFormatOk path
  · simp [h, parseSegments_ne_format]
  · simp [Bool.not_eq_true] at h
    simp [h]

/-! ## Claim C8 -/

/-- C8 counterexample: the unhardened index 2147483648 = 2^31 does not
fit in 31 bits, yet the parser accepts it instead of failing with
InvalidIndex. -/
theorem C8_no_31_bit_check_counterexample :
    parsePath "m/2147483648" = .ok [2147483648] := by decide

/-- C8 (amended): a segment fails with InvalidIndex exactly when its
numeric prefix is empty (parseInt yields NaN); there is no 31-bit range
check, indices of any size are accepted, and hardened segments add the
2^31 offset as claimed. -/
theorem C8_segment_index_behaviour :
    (∀ comp : List Char, (parseSegment comp).isOk = (parseIntJS comp).isSome) ∧
    (∀ comp : List Char, ∀ k : Nat, parseIntJS comp = some k →
      parseSegment comp =
        .ok (if comp.getLast? == some apostropheChar then k + HARDENED_OFFSET else k)) ∧
    parsePath "m/2147483648" = .ok [2147483648] ∧
    parsePath (String.mk ['m', '/', '1', apostropheChar]) = .ok [2147483649] := by
  refine ⟨?_, ?_, by decide, by decide⟩
  · intro comp
    unfold parseSegment
    cases h : parseIntJS comp <;> simp [h, Except.isOk, Except.toBool]
  · intro comp k h
    unfold parseSegment
    rw [h]

/-- C8 witness: the segment rule of the amended theorem at the digit 1. -/
theorem C8_segment_index_behaviour_witness :
    parseSegment ['1'] =
      .ok (if (['1'] : List Char).getLast? == some apostropheChar
           then 1 + HARDENED_OFFSET else 1) :=
  C8_segment_index_behaviour.2.1 ['1'] 1 (by decide)

/-! ## Claim C9 -/

/-- C9 counterexample: deriving with the depth-0 path m fails with
InvalidPathFormat instead of returning the master key. -/
theorem C9_path_m_rejected_counterexample :
    derivePrivateKeyBuffer zeroOracle [] "m" = .error .invalidPathFormat := by decide

/-- C9 (amended): for every oracle and every seed, deriving with the
path m fails with InvalidPathFormat: the parser demands at least one
segment after the m, so the bare master key is never returned. -/
theorem C9_depth_zero_path_fails (O : CurveOracle) (seed : List Nat) :
    derivePrivateKeyBuffer O seed "m" = .error .invalidPathFormat := by
  have h : parsePath "m" = .error .invalidPathFormat := by decide
  unfold derivePrivateKeyBuffer
  rw [h]
  rfl

/-! ## Claim C10 -/

/-- C10 counterexample: the constructor checks only the buffer length,
so a non-disposed key can hold the all-zero 32-byte scalar; on a
32-byte digest, sign then fails with the invalid-key error
secp256k1.sign raises, so sign does not succeed for every 32-byte
digest on every non-disposed key. -/
theorem C10_invalid_scalar_sign_fails_counterexample :
    mkSigningKey (List.replicate 32 0) = .ok ⟨some (List.replicate 32 0)⟩ ∧
    signingKeySign (fun _ _ => []) ⟨some (List.replicate 32 0)⟩ (List.replicate 32 0) =
      .error .invalidScalar := by decide

/-- C10 (amended): on a non-disposed key, sign fails with the
digest-length error exactly when the digest is not 32 bytes, whatever
the scalar; and when the key holds a valid secp256k1 scalar (32 bytes,
value in [1, n-1] — which construction does not check), sign succeeds
on every 32-byte digest. -/
theorem C10_sign_digest_length_check (sigFn : List Nat → List Nat → List Nat)
    (s : SigningKeyState) (pk digest : List Nat)
    (h : s.privateKeyBuffer = some pk) (hv : ValidScalar pk) :
    (signingKeySign sigFn s digest = .error .invalidDigestLength ↔ digest.length ≠ 32) ∧
    (digest.length = 32 → (signingKeySign sigFn s digest).isOk = true) := by
  unfold signingKeySign
  rw [h]
  by_cases hd : digest.length ≠ 32
  · simp [if_pos hd, hd]
  · simp only [ne_eq, Decidable.not_not] at hd
    simp [hd, hv, Except.isOk, Except.toBool]

/-- C10 witness: the theorem applied to a live key holding the scalar 1
and a 32-byte digest. -/
theorem C10_sign_digest_length_check_witness :
    (signingKeySign (fun _ _ => []) ⟨some (List.replicate 31 0 ++ [1])⟩
        (List.replicate 32 0) =
        .error .invalidDigestLength ↔ (List.replicate 32 0 : List Nat).length ≠ 32) ∧
    ((List.replicate 32 0 : List Nat).length = 32 →
      (signingKeySign (fun _ _ => []) ⟨some (List.replicate 31 0 ++ [1])⟩
        (List.replicate 32 0)).isOk = true) :=
  C10_sign_digest_length_check (fun _ _ => []) ⟨some (List.replicate 31 0 ++ [1])⟩
    (List.replicate 31 0 ++ [1]) (List.replicate 32 0) rfl (by decide)

end WdkWalletTron
